import Mathlib

/-!
Verification development for src/converter/convert.py.

The script expands glob patterns, and for each matched file: reads it as
UTF-8 text, parses the text as JSON, hands the document to the external
deepgram_captions collaborators, removes the substring "_response" from the
path string, swaps the path suffix to ".srt" with pathlib, and writes the
caption text to the derived path.

Paths are modelled as lists of characters.  The pure path derivation
(lines 31-33 of convert.py) is embedded directly; the collaborator calls
(UTF-8 decoding, json.loads, DeepgramConverter, srt) are opaque to the
repository and are modelled as explicit function parameters gathered in a
context structure.  Filesystem effects are modelled by an association list
from paths to byte lists together with an explicit event trace.
-/

namespace Convert

/-- Characters of the literal "_response" removed at line 31 of convert.py. -/
def respPat : List Char := ['_', 'r', 'e', 's', 'p', 'o', 'n', 's', 'e']

/-- Characters of the literal ".srt" passed to with_suffix at line 33. -/
def srtExt : List Char := ['.', 's', 'r', 't']

/-- Tests whether the first list is an initial segment of the second. -/
def headMatch : List Char → List Char → Bool
  | [], _ => true
  | _ :: _, [] => false
  | a :: as, b :: bs => if a = b then headMatch as bs else false

/-- Fuel-indexed scanner behind removeResponse; the fuel only serves to make
the recursion structural and is irrelevant once it covers the list length. -/
def removeRespFuel : Nat → List Char → List Char
  | 0, l => l
  | fuel + 1, l =>
    match l with
    | [] => []
    | c :: rest =>
      if headMatch respPat (c :: rest) then removeRespFuel fuel (rest.drop 8)
      else c :: removeRespFuel fuel rest

/-- Python str.replace("_response", "") from line 31: a single left-to-right
scan removing every non-overlapping occurrence of the pattern. -/
def removeResponse (l : List Char) : List Char :=
  removeRespFuel l.length l

/-- Occurrence test for the "_response" pattern, matching the scan of
removeResponse. -/
def containsResp : List Char → Bool
  | [] => false
  | c :: rest => headMatch respPat (c :: rest) || containsResp rest

/-- Splits a path string at every slash; never returns the empty list. -/
def splitSep : List Char → List (List Char)
  | [] => [[]]
  | c :: rest =>
    if c = '/' then [] :: splitSep rest
    else
      match splitSep rest with
      | [] => [[c]]
      | s :: ss => (c :: s) :: ss

/-- Joins segments with slashes; left inverse of splitSep. -/
def joinSep : List (List Char) → List Char
  | [] => []
  | [s] => s
  | s :: ss => s ++ '/' :: joinSep ss

/-- Normalised components of a POSIX path as pathlib stores them: empty
segments and "." segments are dropped (so repeated slashes collapse and a
trailing slash disappears). -/
def parseComps (p : List Char) : List (List Char) :=
  (splitSep p).filter (fun s => decide (s ≠ [] ∧ s ≠ ['.']))

/-- Whether the path is absolute (leading slash). -/
def isAbs : List Char → Bool
  | '/' :: _ => true
  | _ => false

/-- Rebuilds the string form of a pathlib path from its root flag and
components. -/
def renderPath (ab : Bool) (comps : List (List Char)) : List Char :=
  (if ab then ['/'] else []) ++ joinSep comps

/-- Index of the last dot of a name, if any. -/
def lastDot : List Char → Option Nat
  | [] => none
  | c :: rest =>
    match lastDot rest with
    | some i => some (i + 1)
    | none => if c = '.' then some 0 else none

/-- Start index of the pathlib suffix of a name: the last dot counts as a
suffix only when it is neither the first nor the final character
(pathlib: 0 < i < len(name) - 1). -/
def pySuffixStart (nm : List Char) : Option Nat :=
  match lastDot nm with
  | none => none
  | some i => if 0 < i ∧ i + 1 < nm.length then some i else none

/-- Name rewriting of pathlib with_suffix for the fixed argument ".srt":
replace the old suffix when present, append otherwise. -/
def swapName (nm : List Char) : List Char :=
  match pySuffixStart nm with
  | none => nm ++ srtExt
  | some i => nm.take i ++ srtExt

/-- Path(s).with_suffix(".srt") from line 33.  Returns none when the path
has an empty pathlib name (for example "", ".", "/"), where with_suffix
raises ValueError. -/
def withSuffixSrt (s : List Char) : Option (List Char) :=
  match (parseComps s).getLast? with
  | none => none
  | some nm => some (renderPath (isAbs s) ((parseComps s).dropLast ++ [swapName nm]))

/-- Output path derivation of lines 31-33: remove "_response" everywhere in
the whole path string, then swap the suffix to ".srt". -/
def outputPath (p : List Char) : Option (List Char) :=
  withSuffixSrt (removeResponse p)

/-- Pathlib suffix of a path, as a character list ([] when there is none or
when the name is empty). -/
def pSuffix (p : List Char) : List Char :=
  match (parseComps p).getLast? with
  | none => []
  | some nm =>
    match pySuffixStart nm with
    | none => []
    | some i => nm.drop i

/-- Removes only the first occurrence of "_response"; used to state what
the claim describes, not what the code does. -/
def removeFirst : List Char → List Char
  | [] => []
  | c :: rest =>
    if headMatch respPat (c :: rest) then rest.drop 8
    else c :: removeFirst rest

/-- Claim-side output path derivation, following the words of claim C1:
remove the first occurrence of "_response" in the filename component only,
swap that component's suffix to ".srt", and leave every other part of the
path unaltered. -/
def outputPathClaimed (p : List Char) : Option (List Char) :=
  match (splitSep p).getLast? with
  | none => none
  | some nm => some (joinSep ((splitSep p).dropLast ++ [swapName (removeFirst nm)]))

/-- Error taxonomy of spec section 7.  readError covers FileNotFoundError,
decodeError a UnicodeDecodeError from f.read(), parseError a
json.JSONDecodeError from json.loads, conversionError a failure of the
external DeepgramConverter, pathError the ValueError raised by with_suffix
on an empty name, writeError a failure to open the output for writing, and
usageError the argparse exit when no positional argument is given. -/
inductive Err
  | usageError
  | readError
  | decodeError
  | parseError
  | conversionError
  | pathError
  | writeError
deriving DecidableEq

/-- Observable filesystem actions, recorded in program order. -/
inductive Event
  | readEv : List Char → List Nat → Event
  | writeEv : List Char → List Nat → Event
deriving DecidableEq

/-- Filesystem: an association list from path strings to file bytes. -/
abbrev FS := List (List Char × List Nat)

/-- Lookup of a file's bytes. -/
def getFile : FS → List Char → Option (List Nat)
  | [], _ => none
  | (q, c) :: rest, p => if q = p then some c else getFile rest p

/-- Opening a path with mode "w+" and writing: creates the file or fully
replaces its contents (truncate-then-write, never append). -/
def setFile : FS → List Char → List Nat → FS
  | [], p, b => [(p, b)]
  | (q, c) :: rest, p, b => if q = p then (p, b) :: rest else (q, c) :: setFile rest p b

/-- External collaborators of the script, opaque to the repository: UTF-8
decoding and encoding (Python's open/read/write in text mode), json.loads,
the deepgram_captions DeepgramConverter constructor and srt renderer, and
the environment's permission to open a path for writing.  Fallible steps
return an Option. -/
structure Ctx (J M : Type) where
  decode : List Nat → Option String
  parse : String → Option J
  toModel : J → Option M
  srt : M → String
  encode : String → List Nat
  canWrite : List Char → Bool

/-- Result of a (partial) run: final filesystem, event trace, and the first
uncaught error if one occurred. -/
structure StepOut where
  fs : FS
  events : List Event
  err : Option Err
deriving DecidableEq

/-- Body of the per-file loop, lines 20-36 of convert.py: open and read the
file, decode, parse JSON, build the transcription model, render captions,
derive the output path, and write.  Each failure aborts with the matching
error and leaves the filesystem unchanged. -/
def processFile {J M : Type} (ctx : Ctx J M) (fs : FS) (file : List Char) : StepOut :=
  match getFile fs file with
  | none => ⟨fs, [], some Err.readError⟩
  | some bytes =>
    match ctx.decode bytes with
    | none => ⟨fs, [Event.readEv file bytes], some Err.decodeError⟩
    | some text =>
      match ctx.parse text with
      | none => ⟨fs, [Event.readEv file bytes], some Err.parseError⟩
      | some doc =>
        match ctx.toModel doc with
        | none => ⟨fs, [Event.readEv file bytes], some Err.conversionError⟩
        | some model =>
          match outputPath file with
          | none => ⟨fs, [Event.readEv file bytes], some Err.pathError⟩
          | some out =>
            if ctx.canWrite out then
              ⟨setFile fs out (ctx.encode (ctx.srt model)),
               [Event.readEv file bytes, Event.writeEv out (ctx.encode (ctx.srt model))],
               none⟩
            else ⟨fs, [Event.readEv file bytes], some Err.writeError⟩

/-- The for-loop over matched files: sequential, aborting on the first
uncaught exception. -/
def runFiles {J M : Type} (ctx : Ctx J M) : FS → List (List Char) → StepOut
  | fs, [] => ⟨fs, [], none⟩
  | fs, f :: rest =>
    let s := processFile ctx fs f
    match s.err with
    | some e => ⟨s.fs, s.events, some e⟩
    | none =>
      let r := runFiles ctx s.fs rest
      ⟨r.fs, s.events ++ r.events, r.err⟩

/-- Lines 16-18: files = []; for g in globs: files.extend(glob.glob(g)).
The glob.glob expansion itself is the standard library's and is passed in
as a function. -/
def expandGlobs (globFn : List Char → List (List Char)) (globs : List (List Char)) :
    List (List Char) :=
  globs.foldl (fun acc g => acc ++ globFn g) []

/-- Lines 8-11: argparse with one required variadic positional; with zero
arguments argparse errors out before anything else runs. -/
def parse_arguments (argv : List (List Char)) : Option (List (List Char)) :=
  if argv.isEmpty then none else some argv

/-- Lines 13-36: parse arguments, expand the globs, run the loop. -/
def main {J M : Type} (ctx : Ctx J M) (globFn : List Char → List (List Char))
    (argv : List (List Char)) (fs : FS) : StepOut :=
  match parse_arguments argv with
  | none => ⟨fs, [], some Err.usageError⟩
  | some globs => runFiles ctx fs (expandGlobs globFn globs)

/-- Process exit status: 0 on success, 2 for the argparse usage error, 1
for an uncaught exception. -/
def exitCode (s : StepOut) : Nat :=
  match s.err with
  | none => 0
  | some Err.usageError => 2
  | some _ => 1

/-- The write events of a trace, as (path, bytes) pairs in order. -/
def writesOf (events : List Event) : List (List Char × List Nat) :=
  events.filterMap fun e =>
    match e with
    | Event.writeEv p b => some (p, b)
    | Event.readEv _ _ => none

/-- Paths of the write events of a trace, in order. -/
def writePaths (events : List Event) : List (List Char) :=
  (writesOf events).map Prod.fst

/-- Replays a list of writes onto a filesystem. -/
def applyWrites (fs : FS) (ws : List (List Char × List Nat)) : FS :=
  ws.foldl (fun a w => setFile a w.1 w.2) fs

/-- Last-write-wins lookup inside a write list. -/
def wlookup : List (List Char × List Nat) → List Char → Option (List Nat)
  | [], _ => none
  | (q, b) :: ws, p =>
    match wlookup ws p with
    | some r => some r
    | none => if q = p then some b else none

/-- First-some choice on options. -/
def orO {α : Type} : Option α → Option α → Option α
  | some a, _ => some a
  | none, b => b

/-- Concrete ASCII-only decoder used to instantiate the opaque UTF-8
decoding in witnesses: every byte below 128 decodes to itself. -/
def asciiDecode (bs : List Nat) : Option String :=
  if bs.all (fun b => decide (b < 128)) then some (String.mk (bs.map Char.ofNat)) else none

/-- Bytes of the text "json", the only text the demo context parses. -/
def jsonBytes : List Nat := [106, 115, 111, 110]

/-- Concrete collaborator instantiation for witnesses: ASCII decoding, a
parser accepting exactly the text "json", an always-succeeding model
constructor, a renderer returning "CAPS", ASCII encoding, and universal
write permission. -/
def demoCtx : Ctx String String :=
  ⟨asciiDecode,
   fun s => if s = "json" then some s else none,
   fun j => some j,
   fun _ => "CAPS",
   fun s => s.toList.map Char.toNat,
   fun _ => true⟩

/-- Two-file demo filesystem, both files holding parseable content. -/
def demoFS2 : FS := [("a_response.json".toList, jsonBytes), ("b.txt".toList, jsonBytes)]

/-- The matched file list for the two-file demo. -/
def demoFiles2 : List (List Char) := ["a_response.json".toList, "b.txt".toList]

/-- Demo filesystem for the abort scenario: the middle file of the batch is
missing. -/
def demoFS7 : FS := [("a.txt".toList, jsonBytes), ("c.txt".toList, jsonBytes)]

/-- Files before the failing one in the abort scenario. -/
def demoPre7 : List (List Char) := ["a.txt".toList]

/-- Files after the failing one in the abort scenario. -/
def demoPost7 : List (List Char) := ["c.txt".toList]

/-- Demo filesystem whose single file is its own derived output path. -/
def demoFS8 : FS := [("a.srt".toList, jsonBytes)]

/-- The matched file list for the self-overwrite scenario. -/
def demoFiles8 : List (List Char) := ["a.srt".toList]

/-- Demo filesystem whose single file writes to a distinct output path. -/
def demoFS8b : FS := [("a_response.json".toList, jsonBytes)]

/-- The matched file list for the disjoint-output scenario. -/
def demoFiles8b : List (List Char) := ["a_response.json".toList]

example : removeResponse ("foo_response.json".toList) = "foo.json".toList := by decide
example : outputPath ("foo_response.json".toList) = some ("foo.srt".toList) := by decide
example : outputPath ("bar.json".toList) = some ("bar.srt".toList) := by decide
example : outputPath ("notes".toList) = some ("notes.srt".toList) := by decide
example : outputPath ("_response.json".toList) = some (".json.srt".toList) := by decide
example : outputPath ("_response".toList) = none := by decide
example : outputPath ("a.srt".toList) = some ("a.srt".toList) := by decide
example : outputPath ("dir_response/a_response_response.json".toList)
    = some ("dir/a.srt".toList) := by decide
example : outputPathClaimed ("dir_response/a_response_response.json".toList)
    = some ("dir_response/a_response.srt".toList) := by decide

lemma headMatch_le_length : ∀ pat s, headMatch pat s = true → pat.length ≤ s.length
  | [], s, _ => by simp
  | _ :: _, [], h => by simp [headMatch] at h
  | a :: as, b :: bs, h => by
    by_cases hab : a = b
    · simp only [headMatch, if_pos hab] at h
      simpa using headMatch_le_length as bs h
    · simp [headMatch, if_neg hab] at h

lemma headMatch_sep : ∀ (pat xs ys : List Char), '/' ∉ pat →
    headMatch pat (xs ++ '/' :: ys) = headMatch pat xs
  | [], xs, ys, _ => rfl
  | p :: ps, [], ys, hp => by
    have hpne : ¬(p = '/') := fun h => hp (by simp [h])
    simp [headMatch, if_neg hpne]
  | p :: ps, x :: xr, ys, hp => by
    have hps : '/' ∉ ps := fun h => hp (List.mem_cons_of_mem _ h)
    by_cases hpx : p = x
    · simp only [List.cons_append, headMatch, if_pos hpx]
      exact headMatch_sep ps xr ys hps
    · simp [headMatch, if_neg hpx]

lemma removeRespFuel_nil : ∀ n, removeRespFuel n [] = [] := by
  intro n; cases n <;> rfl

lemma removeRespFuel_irrel : ∀ n m (l : List Char), l.length ≤ n → l.length ≤ m →
    removeRespFuel n l = removeRespFuel m l := by
  intro n
  induction n with
  | zero =>
    intro m l hn _
    have : l = [] := List.length_eq_zero.mp (Nat.le_zero.mp hn)
    subst this
    simp [removeRespFuel_nil]
  | succ n ih =>
    intro m l hn hm
    cases l with
    | nil => simp [removeRespFuel_nil]
    | cons c rest =>
      cases m with
      | zero => simp at hm
      | succ m =>
        have hrn : rest.length ≤ n := by simpa using hn
        have hrm : rest.length ≤ m := by simpa using hm
        have hdn : (rest.drop 8).length ≤ n :=
          le_trans (by simp) hrn
        have hdm : (rest.drop 8).length ≤ m :=
          le_trans (by simp) hrm
        simp only [removeRespFuel]
        by_cases h : headMatch respPat (c :: rest) = true
        · rw [if_pos h, if_pos h, ih m _ hdn hdm]
        · rw [if_neg h, if_neg h, ih m _ hrn hrm]

lemma removeResponse_cons (c : Char) (rest : List Char) :
    removeResponse (c :: rest) =
      if headMatch respPat (c :: rest) then removeResponse (rest.drop 8)
      else c :: removeResponse rest := by
  show removeRespFuel (rest.length + 1) (c :: rest) = _
  simp only [removeRespFuel]
  by_cases h : headMatch respPat (c :: rest) = true
  · rw [if_pos h, if_pos h]
    show removeRespFuel rest.length (rest.drop 8)
        = removeRespFuel (rest.drop 8).length (rest.drop 8)
    exact removeRespFuel_irrel _ _ _ (by simp only [List.length_drop]; omega) le_rfl
  · rw [if_neg h, if_neg h]
    rfl

lemma removeResponse_sep (ys : List Char) :
    ∀ xs, removeResponse (xs ++ '/' :: ys) = removeResponse xs ++ '/' :: removeResponse ys := by
  have hsep : ∀ xs, headMatch respPat (xs ++ '/' :: ys) = headMatch respPat xs :=
    fun xs => headMatch_sep respPat xs ys (by decide)
  suffices H : ∀ n xs, List.length xs ≤ n →
      removeResponse (xs ++ '/' :: ys) = removeResponse xs ++ '/' :: removeResponse ys by
    exact fun xs => H xs.length xs le_rfl
  intro n
  induction n with
  | zero =>
    intro xs hx
    have : xs = [] := List.length_eq_zero.mp (Nat.le_zero.mp hx)
    subst this
    rw [List.nil_append, removeResponse_cons]
    have : ¬(headMatch respPat ('/' :: ys) = true) := by
      have := hsep []
      simp only [List.nil_append] at this
      rw [this]; simp [headMatch, respPat]
    rw [if_neg this]
    rfl
  | succ n ih =>
    intro xs hx
    cases xs with
    | nil =>
      rw [List.nil_append, removeResponse_cons]
      have : ¬(headMatch respPat ('/' :: ys) = true) := by
        have := hsep []
        simp only [List.nil_append] at this
        rw [this]; simp [headMatch, respPat]
      rw [if_neg this]
      rfl
    | cons c rest =>
      have hrn : rest.length ≤ n := by simpa using hx
      rw [List.cons_append, removeResponse_cons, removeResponse_cons c rest]
      have hcond : headMatch respPat (c :: (rest ++ '/' :: ys)) = headMatch respPat (c :: rest) := by
        have := hsep (c :: rest)
        simpa using this
      rw [hcond]
      by_cases h : headMatch respPat (c :: rest) = true
      · rw [if_pos h, if_pos h]
        have hlen : 8 ≤ rest.length := by
          have := headMatch_le_length respPat (c :: rest) h
          simp only [respPat] at this
          simp only [List.length_cons] at this ⊢
          omega
        rw [List.drop_append_of_le_length hlen]
        exact ih _ (le_trans (by simp) hrn)
      · rw [if_neg h, if_neg h, ih rest hrn]
        rfl

lemma splitSep_ne_nil (p : List Char) : splitSep p ≠ [] := by
  cases p with
  | nil => simp [splitSep]
  | cons c rest =>
    simp only [splitSep]
    by_cases hc : c = '/'
    · rw [if_pos hc]; simp
    · rw [if_neg hc]
      cases h : splitSep rest <;> simp

lemma joinSep_cons (s : List Char) (ss : List (List Char)) (h : ss ≠ []) :
    joinSep (s :: ss) = s ++ '/' :: joinSep ss := by
  cases ss with
  | nil => exact absurd rfl h
  | cons a as => rfl

lemma joinSep_splitSep : ∀ p : List Char, joinSep (splitSep p) = p := by
  intro p
  induction p with
  | nil => rfl
  | cons c rest ih =>
    by_cases hc : c = '/'
    · subst hc
      rw [show splitSep ('/' :: rest) = [] :: splitSep rest by simp [splitSep]]
      rw [joinSep_cons [] (splitSep rest) (splitSep_ne_nil rest)]
      simpa using ih
    · cases hs : splitSep rest with
      | nil => exact absurd hs (splitSep_ne_nil rest)
      | cons s ss =>
        have hstep : splitSep (c :: rest) = (c :: s) :: ss := by
          simp only [splitSep, if_neg hc, hs]
        rw [hstep]
        rw [hs] at ih
        cases ss with
        | nil =>
          simp only [joinSep] at ih ⊢
          simp [ih]
        | cons s2 ss2 =>
          simp only [joinSep] at ih ⊢
          simp only [List.cons_append, ih]

lemma removeResponse_join : ∀ segs : List (List Char), segs ≠ [] →
    removeResponse (joinSep segs) = joinSep (segs.map removeResponse)
  | [], h => absurd rfl h
  | [s], _ => by simp [joinSep]
  | s :: s2 :: ss, _ => by
    have ih := removeResponse_join (s2 :: ss) (by simp)
    have h1 : joinSep (s :: s2 :: ss) = s ++ '/' :: joinSep (s2 :: ss) := rfl
    have h2 : joinSep (List.map removeResponse (s :: s2 :: ss))
        = removeResponse s ++ '/' :: joinSep (List.map removeResponse (s2 :: ss)) := rfl
    rw [h1, removeResponse_sep, ih, h2]

lemma removeResponse_of_not_contains : ∀ p, containsResp p = false → removeResponse p = p := by
  intro p
  induction p with
  | nil => intro _; rfl
  | cons c rest ih =>
    intro h
    simp only [containsResp, Bool.or_eq_false_iff] at h
    rw [removeResponse_cons, if_neg (by simp [h.1]), ih h.2]

lemma getLast_decomp {α : Type} : ∀ (l : List α) (a : α),
    l.getLast? = some a → l.dropLast ++ [a] = l
  | [], a, h => by simp at h
  | [b], a, h => by
    simp only [List.getLast?_singleton, Option.some.injEq] at h
    simp [h]
  | b :: c :: rest, a, h => by
    have h2 : (c :: rest).getLast? = some a := by
      rw [← h, List.getLast?_cons_cons]
    have ih := getLast_decomp (c :: rest) a h2
    show b :: ((c :: rest).dropLast ++ [a]) = b :: c :: rest
    rw [ih]

lemma joinSep_ends : ∀ (cs : List (List Char)) (nm : List Char),
    ∃ pre, joinSep (cs ++ [nm]) = pre ++ nm
  | [], nm => ⟨[], by simp [joinSep]⟩
  | c :: cs, nm => by
    obtain ⟨pre, hp⟩ := joinSep_ends cs nm
    refine ⟨c ++ '/' :: pre, ?_⟩
    rw [List.cons_append, joinSep_cons c (cs ++ [nm]) (by simp), hp]
    simp

lemma swapName_ends (nm : List Char) : ∃ q, swapName nm = q ++ srtExt := by
  unfold swapName
  cases pySuffixStart nm with
  | none => exact ⟨nm, rfl⟩
  | some i => exact ⟨nm.take i, rfl⟩

lemma outputPath_ends {f out : List Char} (h : outputPath f = some out) :
    ∃ pre, out = pre ++ srtExt := by
  unfold outputPath withSuffixSrt at h
  cases hl : (parseComps (removeResponse f)).getLast? with
  | none => rw [hl] at h; exact absurd h (by simp)
  | some nm =>
    rw [hl] at h
    simp only [Option.some.injEq] at h
    obtain ⟨q, hq⟩ := swapName_ends nm
    obtain ⟨pre, hp⟩ := joinSep_ends ((parseComps (removeResponse f)).dropLast) (swapName nm)
    refine ⟨(if isAbs (removeResponse f) then ['/'] else []) ++ pre ++ q, ?_⟩
    rw [← h]
    unfold renderPath
    rw [hp, hq]
    simp [List.append_assoc]

lemma runFiles_nil {J M : Type} (ctx : Ctx J M) (fs : FS) :
    runFiles ctx fs [] = ⟨fs, [], none⟩ := rfl

lemma runFiles_cons_err {J M : Type} (ctx : Ctx J M) (fs : FS) (f : List Char)
    (rest : List (List Char)) (e : Err) (h : (processFile ctx fs f).err = some e) :
    runFiles ctx fs (f :: rest) =
      ⟨(processFile ctx fs f).fs, (processFile ctx fs f).events, some e⟩ := by
  simp only [runFiles]
  rw [h]

lemma runFiles_cons_ok {J M : Type} (ctx : Ctx J M) (fs : FS) (f : List Char)
    (rest : List (List Char)) (h : (processFile ctx fs f).err = none) :
    runFiles ctx fs (f :: rest) =
      ⟨(runFiles ctx (processFile ctx fs f).fs rest).fs,
       (processFile ctx fs f).events ++ (runFiles ctx (processFile ctx fs f).fs rest).events,
       (runFiles ctx (processFile ctx fs f).fs rest).err⟩ := by
  simp only [runFiles]
  rw [h]

lemma processFile_missing {J M : Type} (ctx : Ctx J M) {fs : FS} {f : List Char}
    (h : getFile fs f = none) :
    processFile ctx fs f = ⟨fs, [], some Err.readError⟩ := by
  simp only [processFile, h]

lemma processFile_nodecode {J M : Type} (ctx : Ctx J M) {fs : FS} {f : List Char}
    {bytes : List Nat} (hb : getFile fs f = some bytes) (hd : ctx.decode bytes = none) :
    processFile ctx fs f = ⟨fs, [Event.readEv f bytes], some Err.decodeError⟩ := by
  simp only [processFile, hb, hd]

lemma processFile_noparse {J M : Type} (ctx : Ctx J M) {fs : FS} {f : List Char}
    {bytes : List Nat} {text : String} (hb : getFile fs f = some bytes)
    (hd : ctx.decode bytes = some text) (hp : ctx.parse text = none) :
    processFile ctx fs f = ⟨fs, [Event.readEv f bytes], some Err.parseError⟩ := by
  simp only [processFile, hb, hd, hp]

lemma processFile_noconvert {J M : Type} (ctx : Ctx J M) {fs : FS} {f : List Char}
    {bytes : List Nat} {text : String} {doc : J} (hb : getFile fs f = some bytes)
    (hd : ctx.decode bytes = some text) (hp : ctx.parse text = some doc)
    (hm : ctx.toModel doc = none) :
    processFile ctx fs f = ⟨fs, [Event.readEv f bytes], some Err.conversionError⟩ := by
  simp only [processFile, hb, hd, hp, hm]

lemma processFile_nopath {J M : Type} (ctx : Ctx J M) {fs : FS} {f : List Char}
    {bytes : List Nat} {text : String} {doc : J} {model : M} (hb : getFile fs f = some bytes)
    (hd : ctx.decode bytes = some text) (hp : ctx.parse text = some doc)
    (hm : ctx.toModel doc = some model) (ho : outputPath f = none) :
    processFile ctx fs f = ⟨fs, [Event.readEv f bytes], some Err.pathError⟩ := by
  simp only [processFile, hb, hd, hp, hm, ho]

lemma processFile_nowrite {J M : Type} (ctx : Ctx J M) {fs : FS} {f : List Char}
    {bytes : List Nat} {text : String} {doc : J} {model : M} {out : List Char}
    (hb : getFile fs f = some bytes) (hd : ctx.decode bytes = some text)
    (hp : ctx.parse text = some doc) (hm : ctx.toModel doc = some model)
    (ho : outputPath f = some out) (hw : ctx.canWrite out = false) :
    processFile ctx fs f = ⟨fs, [Event.readEv f bytes], some Err.writeError⟩ := by
  simp only [processFile, hb, hd, hp, hm, ho, hw]
  simp

lemma processFile_run {J M : Type} (ctx : Ctx J M) {fs : FS} {f : List Char}
    {bytes : List Nat} {text : String} {doc : J} {model : M} {out : List Char}
    (hb : getFile fs f = some bytes) (hd : ctx.decode bytes = some text)
    (hp : ctx.parse text = some doc) (hm : ctx.toModel doc = some model)
    (ho : outputPath f = some out) (hw : ctx.canWrite out = true) :
    processFile ctx fs f =
      ⟨setFile fs out (ctx.encode (ctx.srt model)),
       [Event.readEv f bytes, Event.writeEv out (ctx.encode (ctx.srt model))], none⟩ := by
  simp only [processFile, hb, hd, hp, hm, ho, hw, if_true]

lemma processFile_ok_inv {J M : Type} (ctx : Ctx J M) (fs : FS) (f : List Char)
    (h : (processFile ctx fs f).err = none) :
    ∃ bytes model out, getFile fs f = some bytes ∧ outputPath f = some out ∧
      processFile ctx fs f =
        ⟨setFile fs out (ctx.encode (ctx.srt model)),
         [Event.readEv f bytes, Event.writeEv out (ctx.encode (ctx.srt model))], none⟩ := by
  cases hb : getFile fs f with
  | none => rw [processFile_missing ctx hb] at h; simp at h
  | some bytes =>
    cases hd : ctx.decode bytes with
    | none => rw [processFile_nodecode ctx hb hd] at h; simp at h
    | some text =>
      cases hp : ctx.parse text with
      | none => rw [processFile_noparse ctx hb hd hp] at h; simp at h
      | some doc =>
        cases hm : ctx.toModel doc with
        | none => rw [processFile_noconvert ctx hb hd hp hm] at h; simp at h
        | some model =>
          cases ho : outputPath f with
          | none => rw [processFile_nopath ctx hb hd hp hm ho] at h; simp at h
          | some out =>
            cases hw : ctx.canWrite out with
            | false => rw [processFile_nowrite ctx hb hd hp hm ho hw] at h; simp at h
            | true =>
              exact ⟨bytes, model, out, rfl, rfl, processFile_run ctx hb hd hp hm ho hw⟩

lemma processFile_err_fs {J M : Type} (ctx : Ctx J M) (fs : FS) (f : List Char) (e : Err)
    (h : (processFile ctx fs f).err = some e) :
    (processFile ctx fs f).fs = fs ∧ writesOf (processFile ctx fs f).events = [] := by
  cases hb : getFile fs f with
  | none => rw [processFile_missing ctx hb]; exact ⟨rfl, rfl⟩
  | some bytes =>
    cases hd : ctx.decode bytes with
    | none => rw [processFile_nodecode ctx hb hd]; exact ⟨rfl, rfl⟩
    | some text =>
      cases hp : ctx.parse text with
      | none => rw [processFile_noparse ctx hb hd hp]; exact ⟨rfl, rfl⟩
      | some doc =>
        cases hm : ctx.toModel doc with
        | none => rw [processFile_noconvert ctx hb hd hp hm]; exact ⟨rfl, rfl⟩
        | some model =>
          cases ho : outputPath f with
          | none => rw [processFile_nopath ctx hb hd hp hm ho]; exact ⟨rfl, rfl⟩
          | some out =>
            cases hw : ctx.canWrite out with
            | false => rw [processFile_nowrite ctx hb hd hp hm ho hw]; exact ⟨rfl, rfl⟩
            | true => rw [processFile_run ctx hb hd hp hm ho hw] at h; simp at h

lemma processFile_congr {J M : Type} (ctx : Ctx J M) (fs1 fs2 : FS) (f : List Char)
    (h : getFile fs2 f = getFile fs1 f) :
    (processFile ctx fs2 f).err = (processFile ctx fs1 f).err ∧
    (processFile ctx fs2 f).events = (processFile ctx fs1 f).events := by
  cases hb : getFile fs1 f with
  | none => rw [processFile_missing ctx hb, processFile_missing ctx (h.trans hb)]; exact ⟨rfl, rfl⟩
  | some bytes =>
    have hb2 : getFile fs2 f = some bytes := h.trans hb
    cases hd : ctx.decode bytes with
    | none =>
      rw [processFile_nodecode ctx hb hd, processFile_nodecode ctx hb2 hd]
      exact ⟨rfl, rfl⟩
    | some text =>
      cases hp : ctx.parse text with
      | none =>
        rw [processFile_noparse ctx hb hd hp, processFile_noparse ctx hb2 hd hp]
        exact ⟨rfl, rfl⟩
      | some doc =>
        cases hm : ctx.toModel doc with
        | none =>
          rw [processFile_noconvert ctx hb hd hp hm, processFile_noconvert ctx hb2 hd hp hm]
          exact ⟨rfl, rfl⟩
        | some model =>
          cases ho : outputPath f with
          | none =>
            rw [processFile_nopath ctx hb hd hp hm ho, processFile_nopath ctx hb2 hd hp hm ho]
            exact ⟨rfl, rfl⟩
          | some out =>
            cases hw : ctx.canWrite out with
            | false =>
              rw [processFile_nowrite ctx hb hd hp hm ho hw,
                processFile_nowrite ctx hb2 hd hp hm ho hw]
              exact ⟨rfl, rfl⟩
            | true =>
              rw [processFile_run ctx hb hd hp hm ho hw, processFile_run ctx hb2 hd hp hm ho hw]
              exact ⟨rfl, rfl⟩

lemma getFile_setFile (p : List Char) (b : List Nat) :
    ∀ (A : FS) (q : List Char),
      getFile (setFile A p b) q = if p = q then some b else getFile A q := by
  intro A
  induction A with
  | nil =>
    intro q
    simp only [setFile, getFile]
  | cons hd rest ih =>
    intro q
    obtain ⟨r, c⟩ := hd
    simp only [setFile]
    by_cases hrp : r = p
    · subst hrp
      rw [if_pos rfl]
      simp only [getFile]
      by_cases hq : r = q
      · rw [if_pos hq, if_pos hq]
      · rw [if_neg hq, if_neg hq, if_neg hq]
    · rw [if_neg hrp]
      simp only [getFile]
      by_cases hq : r = q
      · rw [if_pos hq, if_neg (fun hh : p = q => hrp (hq ▸ hh.symm)), if_pos hq]
      · rw [if_neg hq, if_neg hq, ih q]

lemma applyWrites_cons (fs : FS) (w : List Char × List Nat)
    (ws : List (List Char × List Nat)) :
    applyWrites fs (w :: ws) = applyWrites (setFile fs w.1 w.2) ws := rfl

lemma getFile_applyWrites :
    ∀ (ws : List (List Char × List Nat)) (A : FS) (p : List Char),
      getFile (applyWrites A ws) p = orO (wlookup ws p) (getFile A p)
  | [], A, p => rfl
  | (q, b) :: ws, A, p => by
    rw [applyWrites_cons, getFile_applyWrites ws _ p, getFile_setFile]
    simp only [wlookup]
    cases hw : wlookup ws p with
    | some r => rfl
    | none =>
      by_cases hqp : q = p
      · simp [orO, hqp]
      · simp [orO, hqp]

lemma writesOf_append (e1 e2 : List Event) :
    writesOf (e1 ++ e2) = writesOf e1 ++ writesOf e2 := by
  simp [writesOf, List.filterMap_append]

lemma runFiles_fs_eq {J M : Type} (ctx : Ctx J M) : ∀ (files : List (List Char)) (fs : FS),
    (runFiles ctx fs files).fs = applyWrites fs (writesOf (runFiles ctx fs files).events)
  | [], fs => rfl
  | f :: rest, fs => by
    cases he : (processFile ctx fs f).err with
    | some e =>
      rw [runFiles_cons_err ctx fs f rest e he]
      obtain ⟨hfs, hw⟩ := processFile_err_fs ctx fs f e he
      simp [hfs, hw, applyWrites]
    | none =>
      obtain ⟨bytes, model, out, hb, ho, hs⟩ := processFile_ok_inv ctx fs f he
      rw [runFiles_cons_ok ctx fs f rest he]
      simp only [hs, writesOf_append]
      have h1 : writesOf [Event.readEv f bytes, Event.writeEv out (ctx.encode (ctx.srt model))]
          = [(out, ctx.encode (ctx.srt model))] := rfl
      rw [h1]
      rw [show ∀ ws, applyWrites fs ([(out, ctx.encode (ctx.srt model))] ++ ws)
          = applyWrites (setFile fs out (ctx.encode (ctx.srt model))) ws from fun ws => rfl]
      exact runFiles_fs_eq ctx rest (setFile fs out (ctx.encode (ctx.srt model)))

lemma runFiles_agree {J M : Type} (ctx : Ctx J M) : ∀ (files : List (List Char)) (fs1 fs2 : FS),
    (∀ f ∈ files, getFile fs2 f = getFile fs1 f) →
    (runFiles ctx fs1 files).err = none →
    (runFiles ctx fs2 files).err = none ∧
    (runFiles ctx fs2 files).events = (runFiles ctx fs1 files).events
  | [], _, _, _, _ => ⟨rfl, rfl⟩
  | f :: rest, fs1, fs2, hag, h1 => by
    have hf : getFile fs2 f = getFile fs1 f := hag f (List.mem_cons_self f rest)
    cases he1 : (processFile ctx fs1 f).err with
    | some e =>
      rw [runFiles_cons_err ctx fs1 f rest e he1] at h1
      simp at h1
    | none =>
      have hc := processFile_congr ctx fs1 fs2 f hf
      have he2 : (processFile ctx fs2 f).err = none := by rw [hc.1, he1]
      obtain ⟨b1, m1, o1, hb1, ho1, hs1⟩ := processFile_ok_inv ctx fs1 f he1
      obtain ⟨b2, m2, o2, hb2, ho2, hs2⟩ := processFile_ok_inv ctx fs2 f he2
      have hev := hc.2
      rw [hs1, hs2] at hev
      simp only [List.cons.injEq, Event.readEv.injEq, Event.writeEv.injEq, and_true,
        true_and] at hev
      obtain ⟨hbe, hoe, hce⟩ := hev
      rw [hbe, hoe, hce] at hs2
      have hagrest : ∀ g ∈ rest,
          getFile (setFile fs2 o1 (ctx.encode (ctx.srt m1))) g
            = getFile (setFile fs1 o1 (ctx.encode (ctx.srt m1))) g := by
        intro g hg
        rw [getFile_setFile, getFile_setFile]
        by_cases h : o1 = g
        · rw [if_pos h, if_pos h]
        · rw [if_neg h, if_neg h]
          exact hag g (List.mem_cons_of_mem f hg)
      rw [runFiles_cons_ok ctx fs1 f rest he1] at h1
      simp only [hs1] at h1
      have ih := runFiles_agree ctx rest (setFile fs1 o1 (ctx.encode (ctx.srt m1)))
        (setFile fs2 o1 (ctx.encode (ctx.srt m1))) hagrest h1
      rw [runFiles_cons_ok ctx fs2 f rest he2, runFiles_cons_ok ctx fs1 f rest he1]
      simp only [hs1, hs2]
      exact ⟨ih.1, by rw [ih.2]⟩

/-- C1, counterexample: the claim fails on the code.  For the input path
"dir_response/a_response_response.json" line 31 removes every occurrence of
"_response" in the whole path string, so the code derives "dir/a.srt",
while the claim's recipe (remove the first occurrence in the filename
component only, alter no other part of the path) derives
"dir_response/a_response.srt". -/
theorem c1_counterexample :
    outputPath ("dir_response/a_response_response.json".toList)
        = some ("dir/a.srt".toList) ∧
    outputPathClaimed ("dir_response/a_response_response.json".toList)
        = some ("dir_response/a_response.srt".toList) ∧
    some ("dir/a.srt".toList) ≠ some ("dir_response/a_response.srt".toList) := by
  decide

/-- C1, amended: for every matched input path, the derived output path is
computed by removing every occurrence of "_response" in every
slash-separated segment of the path, directory components included, and
then replacing the extension of the result with ".srt". -/
theorem c1_amended (p : List Char) :
    outputPath p = withSuffixSrt (joinSep ((splitSep p).map removeResponse)) := by
  unfold outputPath
  rw [← removeResponse_join (splitSep p) (splitSep_ne_nil p), joinSep_splitSep]

/-- C3: the processed file sequence is the concatenation of each pattern's
own match list in argument order, with no deduplication and no sorting:
the result equals the flattened per-pattern match lists, and the
multiplicity of any path is the sum of its per-pattern multiplicities, so
a file matched by two patterns appears twice. -/
theorem c3_concat (globFn : List Char → List (List Char)) (pats : List (List Char)) :
    expandGlobs globFn pats = (pats.map globFn).flatten ∧
    ∀ p : List Char, (expandGlobs globFn pats).count p
      = ((pats.map fun g => (globFn g).count p).sum) := by
  have hjoin : ∀ (l : List (List Char)) (acc : List (List Char)),
      l.foldl (fun a g => a ++ globFn g) acc = acc ++ (l.map globFn).flatten := by
    intro l
    induction l with
    | nil => intro acc; simp
    | cons g gs ih => intro acc; simp [ih, List.append_assoc]
  have hexp : expandGlobs globFn pats = (pats.map globFn).flatten := by
    simpa using hjoin pats []
  refine ⟨hexp, fun p => ?_⟩
  rw [hexp, List.count_flatten, List.map_map]
  rfl

/-- C4: a file whose bytes decode to text that is not valid JSON makes its
processing stop with parseError right after the read: the filesystem is
unchanged and no write event is emitted, so no output file is created for
that input. -/
theorem c4_parse_error {J M : Type} (ctx : Ctx J M) (fs : FS) (f : List Char)
    (bytes : List Nat) (text : String) (hb : getFile fs f = some bytes)
    (hd : ctx.decode bytes = some text) (hp : ctx.parse text = none) :
    (processFile ctx fs f).err = some Err.parseError ∧
    (processFile ctx fs f).fs = fs ∧
    writesOf (processFile ctx fs f).events = [] := by
  rw [processFile_noparse ctx hb hd hp]
  exact ⟨rfl, rfl, rfl⟩

/-- C4 witness: the demo context rejects the text "no" as JSON and the
processing of a file holding it errors with parseError and writes nothing. -/
theorem c4_parse_error_witness :
    (getFile [("bad.json".toList, [110, 111])] ("bad.json".toList) = some [110, 111] ∧
     demoCtx.decode [110, 111] = some "no" ∧
     demoCtx.parse "no" = none) ∧
    ((processFile demoCtx [("bad.json".toList, [110, 111])] ("bad.json".toList)).err
        = some Err.parseError ∧
     (processFile demoCtx [("bad.json".toList, [110, 111])] ("bad.json".toList)).fs
        = [("bad.json".toList, [110, 111])] ∧
     writesOf (processFile demoCtx [("bad.json".toList, [110, 111])]
        ("bad.json".toList)).events = []) :=
  ⟨⟨by decide, by decide, by decide⟩,
   c4_parse_error demoCtx _ _ [110, 111] "no" (by decide) (by decide) (by decide)⟩

/-- C5: a file whose bytes do not decode makes its processing stop with
decodeError right after the read: the filesystem is unchanged and no write
event is emitted, so no output file is created for that input. -/
theorem c5_decode_error {J M : Type} (ctx : Ctx J M) (fs : FS) (f : List Char)
    (bytes : List Nat) (hb : getFile fs f = some bytes) (hd : ctx.decode bytes = none) :
    (processFile ctx fs f).err = some Err.decodeError ∧
    (processFile ctx fs f).fs = fs ∧
    writesOf (processFile ctx fs f).events = [] := by
  rw [processFile_nodecode ctx hb hd]
  exact ⟨rfl, rfl, rfl⟩

/-- C5 witness: byte 200 is not ASCII, so the demo decoder fails and the
processing of a file holding it errors with decodeError and writes
nothing. -/
theorem c5_decode_error_witness :
    (getFile [("bin.json".toList, [200])] ("bin.json".toList) = some [200] ∧
     demoCtx.decode [200] = none) ∧
    ((processFile demoCtx [("bin.json".toList, [200])] ("bin.json".toList)).err
        = some Err.decodeError ∧
     (processFile demoCtx [("bin.json".toList, [200])] ("bin.json".toList)).fs
        = [("bin.json".toList, [200])] ∧
     writesOf (processFile demoCtx [("bin.json".toList, [200])]
        ("bin.json".toList)).events = []) :=
  ⟨⟨by decide, by decide⟩,
   c5_decode_error demoCtx _ _ [200] (by decide) (by decide)⟩

/-- C6: with zero glob arguments the program stops with the usage error
before any filesystem activity: the filesystem is untouched, the event
trace is empty (no file is read or written), and the exit status is
non-zero. -/
theorem c6_usage {J M : Type} (ctx : Ctx J M) (globFn : List Char → List (List Char))
    (fs : FS) :
    main ctx globFn [] fs = ⟨fs, [], some Err.usageError⟩ ∧
    exitCode (main ctx globFn [] fs) ≠ 0 := by
  refine ⟨rfl, ?_⟩
  rw [show main ctx globFn [] fs = ⟨fs, [], some Err.usageError⟩ from rfl]
  simp [exitCode]

/-- C10, counterexample: the claim fails on the code.  For the input path
"_response" the final component after removal is empty and has no
extension, so the claim predicts the output ".srt" obtained by appending;
the code instead derives no output path at all, because
Path("").with_suffix(".srt") raises ValueError. -/
theorem c10_counterexample :
    outputPath ("_response".toList) = none ∧
    outputPath ("_response".toList) ≠ some (".srt".toList) := by
  decide

/-- C10, amended: when the final pathlib name after "_response" removal is
nonempty and has no dot-separated extension (dot-leading names such as
".json" are treated as extensionless), the output path is formed by
appending ".srt" to that name rather than replacing anything; when the
name after removal is empty, no output path is derived and with_suffix
raises instead. -/
theorem c10_append (p nm : List Char)
    (h1 : (parseComps (removeResponse p)).getLast? = some nm)
    (h2 : pySuffixStart nm = none) :
    outputPath p = some (renderPath (isAbs (removeResponse p))
      ((parseComps (removeResponse p)).dropLast ++ [nm ++ srtExt])) := by
  simp only [outputPath, withSuffixSrt, h1, swapName, h2]

/-- C10 witness: the dot-leading example of the claim, input
"_response.json", whose name after removal is ".json" and whose derived
output is ".json.srt". -/
theorem c10_append_witness :
    ((parseComps (removeResponse ("_response.json".toList))).getLast?
        = some (".json".toList) ∧
     pySuffixStart (".json".toList) = none) ∧
    outputPath ("_response.json".toList)
      = some (renderPath (isAbs (removeResponse ("_response.json".toList)))
          ((parseComps (removeResponse ("_response.json".toList))).dropLast
            ++ [".json".toList ++ srtExt])) :=
  ⟨⟨by decide, by decide⟩,
   c10_append ("_response.json".toList) (".json".toList) (by decide) (by decide)⟩

lemma writePaths_append (e1 e2 : List Event) :
    writePaths (e1 ++ e2) = writePaths e1 ++ writePaths e2 := by
  simp [writePaths, writesOf_append]

/-- C2: an error-free run over the matched files emits exactly one write
per file, in order, the k-th write going to the derived output path of the
k-th file, and every written path ends in ".srt" whatever the input
extension was. -/
theorem c2_outputs {J M : Type} (ctx : Ctx J M) (fs : FS) (files : List (List Char))
    (h : (runFiles ctx fs files).err = none) :
    List.Forall₂ (fun f w => outputPath f = some w) files
      (writePaths (runFiles ctx fs files).events) ∧
    ∀ w ∈ writePaths (runFiles ctx fs files).events, ∃ pre, w = pre ++ srtExt := by
  induction files generalizing fs with
  | nil =>
    refine ⟨?_, ?_⟩
    · exact List.Forall₂.nil
    · intro w hw
      simp [runFiles_nil, writePaths, writesOf] at hw
  | cons f rest ih =>
    cases he : (processFile ctx fs f).err with
    | some e =>
      rw [runFiles_cons_err ctx fs f rest e he] at h
      simp at h
    | none =>
      obtain ⟨bytes, model, out, hb, ho, hs⟩ := processFile_ok_inv ctx fs f he
      rw [runFiles_cons_ok ctx fs f rest he] at h ⊢
      simp only [hs] at h ⊢
      obtain ⟨ih1, ih2⟩ := ih (setFile fs out (ctx.encode (ctx.srt model))) h
      have hwp : writePaths ([Event.readEv f bytes,
            Event.writeEv out (ctx.encode (ctx.srt model))]
          ++ (runFiles ctx (setFile fs out (ctx.encode (ctx.srt model))) rest).events)
          = out :: writePaths
              (runFiles ctx (setFile fs out (ctx.encode (ctx.srt model))) rest).events := by
        rw [writePaths_append]
        rfl
      rw [hwp]
      refine ⟨List.Forall₂.cons ho ih1, ?_⟩
      intro w hw
      rw [List.mem_cons] at hw
      rcases hw with rfl | hw
      · exact outputPath_ends ho
      · exact ih2 w hw

/-- C2 witness: two matched files produce exactly two writes, at the
derived paths "a.srt" and "b.srt". -/
theorem c2_outputs_witness :
    (runFiles demoCtx demoFS2 demoFiles2).err = none ∧
    (List.Forall₂ (fun f w => outputPath f = some w) demoFiles2
        (writePaths (runFiles demoCtx demoFS2 demoFiles2).events) ∧
     ∀ w ∈ writePaths (runFiles demoCtx demoFS2 demoFiles2).events,
        ∃ pre, w = pre ++ srtExt) :=
  ⟨by decide, c2_outputs demoCtx demoFS2 demoFiles2 (by decide)⟩

/-- C7: the batch aborts at the first failing file: with an error-free
prefix and a failing file f, the whole run ends in f's error, its trace is
exactly the prefix trace followed by f's own events, and its filesystem is
the one left by f, so no file after f is read, converted, or written. -/
theorem c7_abort {J M : Type} (ctx : Ctx J M) (fs : FS) (pre post : List (List Char))
    (f : List Char) (e : Err)
    (h1 : (runFiles ctx fs pre).err = none)
    (h2 : (processFile ctx (runFiles ctx fs pre).fs f).err = some e) :
    runFiles ctx fs (pre ++ f :: post) =
      ⟨(processFile ctx (runFiles ctx fs pre).fs f).fs,
       (runFiles ctx fs pre).events ++ (processFile ctx (runFiles ctx fs pre).fs f).events,
       some e⟩ := by
  induction pre generalizing fs with
  | nil =>
    simp only [List.nil_append]
    rw [runFiles_cons_err ctx fs f post e h2]
    rfl
  | cons p ps ih =>
    cases hp : (processFile ctx fs p).err with
    | some e' =>
      rw [runFiles_cons_err ctx fs p ps e' hp] at h1
      simp at h1
    | none =>
      rw [runFiles_cons_ok ctx fs p ps hp] at h1 h2 ⊢
      dsimp only at h1 h2 ⊢
      rw [List.cons_append, runFiles_cons_ok ctx fs p (ps ++ f :: post) hp,
        ih (processFile ctx fs p).fs h1 h2]
      simp [List.append_assoc]

/-- C7 witness: a three-position batch whose middle file is missing ends in
readError with only the first file processed and the third untouched. -/
theorem c7_abort_witness :
    ((runFiles demoCtx demoFS7 demoPre7).err = none ∧
     (processFile demoCtx (runFiles demoCtx demoFS7 demoPre7).fs
        ("missing.txt".toList)).err = some Err.readError) ∧
    runFiles demoCtx demoFS7 (demoPre7 ++ "missing.txt".toList :: demoPost7) =
      ⟨(processFile demoCtx (runFiles demoCtx demoFS7 demoPre7).fs
          ("missing.txt".toList)).fs,
       (runFiles demoCtx demoFS7 demoPre7).events ++
         (processFile demoCtx (runFiles demoCtx demoFS7 demoPre7).fs
            ("missing.txt".toList)).events,
       some Err.readError⟩ :=
  ⟨⟨by decide, by decide⟩,
   c7_abort demoCtx demoFS7 demoPre7 demoPost7 ("missing.txt".toList) Err.readError
     (by decide) (by decide)⟩

/-- C8, counterexample: the claim fails on the code.  The file "a.srt" is
its own derived output, so the first run succeeds and overwrites it with
caption text; the second run on the same input then reads that caption
text, fails to parse it as JSON, and aborts with parseError producing no
output file at all, rather than producing byte-identical output files. -/
theorem c8_counterexample :
    (runFiles demoCtx demoFS8 demoFiles8).err = none ∧
    (runFiles demoCtx (runFiles demoCtx demoFS8 demoFiles8).fs demoFiles8).err
        = some Err.parseError ∧
    writesOf (runFiles demoCtx (runFiles demoCtx demoFS8 demoFiles8).fs
        demoFiles8).events = [] := by
  decide

/-- C8, amended: provided the first run leaves the content of every input
file unchanged (in particular no derived output path coincides with an
input path), running the converter again on the same inputs succeeds,
performs the identical reads and writes, and leaves every file of the
filesystem byte-identical: each output is fully overwritten with the same
bytes, never appended to. -/
theorem c8_idempotent {J M : Type} (ctx : Ctx J M) (fs : FS) (files : List (List Char))
    (h1 : (runFiles ctx fs files).err = none)
    (h2 : ∀ f ∈ files, getFile (runFiles ctx fs files).fs f = getFile fs f) :
    (runFiles ctx (runFiles ctx fs files).fs files).err = none ∧
    (runFiles ctx (runFiles ctx fs files).fs files).events
        = (runFiles ctx fs files).events ∧
    ∀ p, getFile (runFiles ctx (runFiles ctx fs files).fs files).fs p
        = getFile (runFiles ctx fs files).fs p := by
  obtain ⟨hE, hEv⟩ := runFiles_agree ctx files fs (runFiles ctx fs files).fs h2 h1
  refine ⟨hE, hEv, fun p => ?_⟩
  have hfs1 := runFiles_fs_eq ctx files fs
  have hfs2 := runFiles_fs_eq ctx files (runFiles ctx fs files).fs
  rw [hfs2, hEv, getFile_applyWrites, hfs1, getFile_applyWrites]
  cases wlookup (writesOf (runFiles ctx fs files).events) p with
  | none => simp [orO]
  | some r => simp [orO]

/-- C8 witness: a run whose single output "a.srt" is distinct from its
input "a_response.json" can be repeated with identical events and a
byte-identical filesystem. -/
theorem c8_idempotent_witness :
    ((runFiles demoCtx demoFS8b demoFiles8b).err = none ∧
     ∀ f ∈ demoFiles8b, getFile (runFiles demoCtx demoFS8b demoFiles8b).fs f
        = getFile demoFS8b f) ∧
    ((runFiles demoCtx (runFiles demoCtx demoFS8b demoFiles8b).fs demoFiles8b).err = none ∧
     (runFiles demoCtx (runFiles demoCtx demoFS8b demoFiles8b).fs demoFiles8b).events
        = (runFiles demoCtx demoFS8b demoFiles8b).events ∧
     ∀ p, getFile (runFiles demoCtx (runFiles demoCtx demoFS8b demoFiles8b).fs
            demoFiles8b).fs p
        = getFile (runFiles demoCtx demoFS8b demoFiles8b).fs p) :=
  ⟨⟨by decide, by decide⟩,
   c8_idempotent demoCtx demoFS8b demoFiles8b (by decide) (by decide)⟩

/-- C9: a matched path containing no "_response" and already carrying the
pathlib suffix ".srt" (given in normal form) is its own derived output:
successful processing reads the file first and then truncates and
overwrites that very path, the captions written being rendered from the
bytes read before the truncation. -/
theorem c9_self_overwrite {J M : Type} (ctx : Ctx J M) (fs : FS) (p : List Char)
    (bytes : List Nat) (text : String) (doc : J) (model : M)
    (hb : getFile fs p = some bytes) (hd : ctx.decode bytes = some text)
    (hp : ctx.parse text = some doc) (hm : ctx.toModel doc = some model)
    (hw : ctx.canWrite p = true) (hc : containsResp p = false)
    (hsuf : pSuffix p = srtExt)
    (hn : renderPath (isAbs p) (parseComps p) = p) :
    outputPath p = some p ∧
    processFile ctx fs p =
      ⟨setFile fs p (ctx.encode (ctx.srt model)),
       [Event.readEv p bytes, Event.writeEv p (ctx.encode (ctx.srt model))], none⟩ := by
  have hid : removeResponse p = p := removeResponse_of_not_contains p hc
  have hout : outputPath p = some p := by
    cases h1 : (parseComps p).getLast? with
    | none =>
      simp only [pSuffix, h1] at hsuf
      exact absurd hsuf (by decide)
    | some nm =>
      cases h2 : pySuffixStart nm with
      | none =>
        simp only [pSuffix, h1, h2] at hsuf
        exact absurd hsuf (by decide)
      | some i =>
        simp only [pSuffix, h1, h2] at hsuf
        have hswap : swapName nm = nm := by
          simp only [swapName, h2]
          rw [← hsuf, List.take_append_drop]
        have hlast := getLast_decomp (parseComps p) nm h1
        simp only [outputPath, hid, withSuffixSrt, h1, hswap, hlast, hn]
  exact ⟨hout, processFile_run ctx hb hd hp hm hout hw⟩

/-- C9 witness: the file "a.srt" with parseable content is read and then
overwritten in place with the rendered captions. -/
theorem c9_self_overwrite_witness :
    (getFile demoFS8 ("a.srt".toList) = some jsonBytes ∧
     demoCtx.decode jsonBytes = some "json" ∧
     demoCtx.parse "json" = some "json" ∧
     demoCtx.toModel "json" = some "json" ∧
     demoCtx.canWrite ("a.srt".toList) = true ∧
     containsResp ("a.srt".toList) = false ∧
     pSuffix ("a.srt".toList) = srtExt ∧
     renderPath (isAbs ("a.srt".toList)) (parseComps ("a.srt".toList)) = "a.srt".toList) ∧
    (outputPath ("a.srt".toList) = some ("a.srt".toList) ∧
     processFile demoCtx demoFS8 ("a.srt".toList) =
       ⟨setFile demoFS8 ("a.srt".toList) (demoCtx.encode (demoCtx.srt "json")),
        [Event.readEv ("a.srt".toList) jsonBytes,
         Event.writeEv ("a.srt".toList) (demoCtx.encode (demoCtx.srt "json"))], none⟩) :=
  ⟨⟨by decide, by decide, by decide, by decide, by decide, by decide, by decide, by decide⟩,
   c9_self_overwrite demoCtx demoFS8 ("a.srt".toList) jsonBytes "json" "json" "json"
     (by decide) (by decide) (by decide) (by decide) (by decide) (by decide) (by decide)
     (by decide)⟩

end Convert
